import Mathlib

/-!
Verification of the mailbox retention/deduplication engine of this repository.

The engine has two variants:
* `CleanupEmails.py` (Outlook COM): `retrieve_emails`, `determine_items_to_be_deleted`,
  `delete_items`, `main`;
* `email_cleanup.py` (Exchange Web Services): `get_repeated_items`,
  `remove_older_items_from_conversations`.

The Python code is shallowly embedded below.  Timestamps are modelled as `Int`
(the code only ever compares `.timestamp()` values), Python strings as Lean
`String` (character-level operations are carried out on `String.toList` so that
all definitions evaluate in the kernel), fallible store operations as
`Except`/`Option` valued functions, and Python `set` values as `Finset String`.
-/

/-! ### Ordering of Python tuples `(creation_time, entry_id)`

`sorted(emails[conversation_id], reverse=True)` sorts the per-conversation list
of `(CreationTime, EntryId)` tuples in descending lexicographic order (Python
compares tuples lexicographically; `datetime` ordering is timestamp ordering and
`str` ordering is code-point lexicographic, matching Lean's `String` order). -/

/-- Strict ascending lexicographic order on `(timestamp, id)` tuples,
as Python compares `(datetime, str)` tuples. -/
def pLt (a b : Int × String) : Prop :=
  a.1 < b.1 ∨ (a.1 = b.1 ∧ a.2 < b.2)

instance (a b : Int × String) : Decidable (pLt a b) :=
  decidable_of_iff (a.1 < b.1 ∨ (a.1 = b.1 ∧ a.2 < b.2)) Iff.rfl

/-- Descending comparison used to model `sorted(…, reverse=True)`:
`a` may precede `b` iff `b < a` or they are equal. -/
def pGe (a b : Int × String) : Prop := pLt b a ∨ a = b

instance (a b : Int × String) : Decidable (pGe a b) :=
  decidable_of_iff (pLt b a ∨ a = b) Iff.rfl

instance : IsTotal (Int × String) pGe := by
  constructor
  intro a b
  rcases lt_trichotomy a.1 b.1 with h | h | h
  · exact Or.inr (Or.inl (Or.inl h))
  · rcases lt_trichotomy a.2 b.2 with h2 | h2 | h2
    · exact Or.inr (Or.inl (Or.inr ⟨h, h2⟩))
    · exact Or.inl (Or.inr (Prod.ext h h2))
    · exact Or.inl (Or.inl (Or.inr ⟨h.symm, h2⟩))
  · exact Or.inl (Or.inl (Or.inl h))

instance : IsTrans (Int × String) pGe := by
  constructor
  rintro a b c (hab | rfl) (hbc | rfl)
  · refine Or.inl ?_
    rcases hbc with h1 | ⟨e1, l1⟩ <;> rcases hab with h2 | ⟨e2, l2⟩
    · exact Or.inl (h1.trans h2)
    · exact Or.inl (e2 ▸ h1)
    · exact Or.inl (e1 ▸ h2)
    · exact Or.inr ⟨e1.trans e2, l1.trans l2⟩
  · exact Or.inl hab
  · exact Or.inl hbc
  · exact Or.inr rfl

instance : IsAntisymm (Int × String) pGe := by
  constructor
  rintro a b (hab | rfl) (hba | h)
  · exfalso
    rcases hab with h1 | ⟨e1, l1⟩ <;> rcases hba with h2 | ⟨e2, l2⟩
    · exact absurd (h1.trans h2) (lt_irrefl _)
    · rw [e2] at h1
      exact absurd h1 (lt_irrefl _)
    · rw [e1] at h2
      exact absurd h2 (lt_irrefl _)
    · exact absurd (l1.trans l2) (lt_irrefl _)
  · exact h.symm
  · rfl
  · rfl

/-- Model of `sorted(l, reverse=True)` on the per-conversation tuple lists of
`determine_items_to_be_deleted` (CleanupEmails.py line 171). -/
def pySortedDesc (l : List (Int × String)) : List (Int × String) :=
  l.insertionSort pGe

/-! ### Data model -/

/-- One retrieved message, as produced by `get_item_data`
(CleanupEmails.py lines 64-80): `EntryId`, `ConversationId`, `CreationTime`
(modelled by its timestamp) and `Categories`. -/
structure MessageRecord where
  id : String
  conversationId : String
  creationTime : Int
  categories : String
deriving DecidableEq, Repr

/-- Model of `KEEP_CATEGORY_REGEX.match(categories, re.IGNORECASE)` for a
literal (metacharacter-free) pattern such as the default `"Keep"`
(CleanupEmails.py lines 57, 136 and 267).  `Pattern.match` takes `(string, pos,
endpos)`, so the flag `re.IGNORECASE` (integer value 2) is passed as the `pos`
argument: the compiled pattern — compiled without flags, hence case-sensitively —
is anchored at character position 2 of `categories`. -/
def codeKeepMatch (pattern cats : String) : Bool :=
  List.isPrefixOf pattern.toList (cats.toList.drop 2)

/-- Modelled from the spec: the intended exemption test, "a message whose
`categories` matches `keepCategoryPattern` (case-insensitive) is exempt", for a
literal pattern: a case-insensitive match anchored at the start of `categories`. -/
def specKeepMatch (pattern cats : String) : Bool :=
  List.isPrefixOf (pattern.toList.map Char.toLower) (cats.toList.map Char.toLower)

/-- Tuple appended per message by `retrieve_emails`
(CleanupEmails.py lines 139-141): `(CreationTime, EntryId)`. -/
def pairOf (m : MessageRecord) : Int × String :=
  (m.creationTime, m.id)

/-- One `defaultdict(list)` append: `emails[item.ConversationId].append(pair)`
preserving Python dict insertion order (CleanupEmails.py lines 137-141). -/
def addToGroups (gs : List (String × List (Int × String))) (cid : String)
    (e : Int × String) : List (String × List (Int × String)) :=
  match gs with
  | [] => [(cid, [e])]
  | (k, v) :: rest =>
    if k = cid then (k, v ++ [e]) :: rest else (k, v) :: addToGroups rest cid e

/-- The grouping loop of `retrieve_emails` (CleanupEmails.py lines 137-141):
a `defaultdict(list)` keyed by `ConversationId`, values in insertion order. -/
def groupEmails (ms : List MessageRecord) : List (String × List (Int × String)) :=
  ms.foldl (fun gs m => addToGroups gs m.conversationId (pairOf m)) []

/-- Lookup of a conversation's list in the grouped dictionary, the read
`emails[conversation_id]` (CleanupEmails.py lines 172 and 190); absent keys
give the `defaultdict` default `[]`. -/
def findConv : List (String × List (Int × String)) → String → List (Int × String)
  | [], _ => []
  | (k1, v) :: rest, k => if k1 = k then v else findConv rest k

/-- Keys of the grouped dictionary, in insertion order. -/
def keysOf (gs : List (String × List (Int × String))) : List String :=
  gs.map Prod.fst

/-- Model of `quick_retrieve_items_from_folders` (CleanupEmails.py
lines 111-127) for one folder: project ids of the messages whose timestamp is
at least `start_date` (`msg[2].timestamp() >= start_date.timestamp()`). -/
def quick_retrieve_items_from_folders (startDate : Int)
    (folder : List MessageRecord) : List String :=
  (folder.filter (fun m => startDate ≤ m.creationTime)).map (fun m => m.id)

/-- Model of `retrieve_emails` (CleanupEmails.py lines 90-142).  `fetch` models
`get_item_data` (lines 64-80): `OUTLOOK.GetItemFromID` wrapped in a bare
`try/except` that yields `None` on any failure; `none` results are dropped
(line 134), then the date filter (line 135) and keep-category filter (line 136)
are applied and the result grouped by conversation id (lines 137-141). -/
def retrieve_emails (pattern : String) (startDate : Int)
    (fetch : String → Option MessageRecord) (folder : List MessageRecord) :
    List (String × List (Int × String)) :=
  groupEmails
    ((((quick_retrieve_items_from_folders startDate folder).filterMap fetch).filter
        (fun m => startDate ≤ m.creationTime)).filter
      (fun m => codeKeepMatch pattern m.categories = false))

/-- Model of `mark_conversation_items_other_than_the_last_to_be_deleted`
(CleanupEmails.py lines 161-176): union with the entry ids of all but the first
element of the conversation's tuple list sorted descending.  The Python helper
receives `(emails, to_be_deleted, conversation_id)` and reads
`emails[conversation_id]`; here the conversation's list is passed directly. -/
def mark_conversation_items_other_than_the_last_to_be_deleted
    (conv : List (Int × String)) (to_be_deleted : Finset String) : Finset String :=
  to_be_deleted ∪ ((pySortedDesc conv).tail.map Prod.snd).toFinset

/-- Model of `mark_older_messages_to_be_deleted` (CleanupEmails.py
lines 178-195): union with the entry ids of the conversation's tuples whose
timestamp is strictly below `older_than_timestamp`. -/
def mark_older_messages_to_be_deleted (conv : List (Int × String))
    (older_than_timestamp : Int) (to_be_deleted : Finset String) : Finset String :=
  to_be_deleted ∪ ((conv.filter (fun e => e.1 < older_than_timestamp)).map Prod.snd).toFinset

/-- Model of `determine_items_to_be_deleted` (CleanupEmails.py lines 146-213):
starting from the empty set, for each conversation first add the too-old
messages (line 211), then all but the most recent message (line 212).  The
Python function returns `list(to_be_deleted)`; the value is kept as the set. -/
def determine_items_to_be_deleted (emails : List (String × List (Int × String)))
    (older_than : Int) : Finset String :=
  emails.foldl
    (fun to_be_deleted kc =>
      mark_conversation_items_other_than_the_last_to_be_deleted kc.2
        (mark_older_messages_to_be_deleted kc.2 older_than to_be_deleted))
    ∅

/-- The store lookup `OUTLOOK.GetItemFromID` when every id resolves against the
folder contents: the first folder message carrying the requested id. -/
def storeFetch (folder : List MessageRecord) (id : String) : Option MessageRecord :=
  folder.find? (fun m => m.id = id)

/-- The decision pipeline of `main` (CleanupEmails.py lines 330-331):
`retrieve_emails` followed by `determine_items_to_be_deleted`. -/
def cleanupDeletionSet (pattern : String) (startDate olderThan : Int)
    (fetch : String → Option MessageRecord) (folder : List MessageRecord) :
    Finset String :=
  determine_items_to_be_deleted (retrieve_emails pattern startDate fetch folder) olderThan

/-- Per-conversation contribution of one pass of the loop body of
`determine_items_to_be_deleted` (CleanupEmails.py lines 204-212). -/
def markSet (older_than : Int) (conv : List (Int × String)) : Finset String :=
  ((conv.filter (fun e => e.1 < older_than)).map Prod.snd).toFinset ∪
    ((pySortedDesc conv).tail.map Prod.snd).toFinset

/-! ### Deletion Executor (`delete_items`, CleanupEmails.py lines 235-272) -/

/-- Per-item behaviour of the Outlook store as seen by `delete_items`:
`fetchItem` models `OUTLOOK.GetItemFromID` (line 264), `setUnread` models the
`item.Unread = False` attribute write (line 269), `moveToDeletedItems` models
`item.Move(deleted_items_folder)` (line 270).  An `Except.error` value means
the COM call raised. -/
structure OutlookStore where
  fetchItem : String → Except Unit MessageRecord
  setUnread : String → Bool → Except Unit Unit
  moveToDeletedItems : String → Except Unit Unit

/-- Loop of `delete_items` (CleanupEmails.py lines 256-271), threading the two
counters `processed` and `deleted`.  Only the fetch (line 264) sits inside a
`try/except: continue`; the keep-category re-check (line 267) skips, and an
exception raised by the `Unread` write or the `Move` propagates out of the
loop, modelled by returning `Except.error`. -/
def delete_items_loop (store : OutlookStore) (pattern : String) :
    List String → Nat → Nat → Except Unit (Nat × Nat)
  | [], processed, deleted => .ok (processed, deleted)
  | entry_id :: rest, processed, deleted =>
    match store.fetchItem entry_id with
    | .error _ => delete_items_loop store pattern rest (processed + 1) deleted
    | .ok item =>
      if codeKeepMatch pattern item.categories then
        delete_items_loop store pattern rest (processed + 1) deleted
      else
        match store.setUnread entry_id false with
        | .error e => .error e
        | .ok _ =>
          match store.moveToDeletedItems entry_id with
          | .error e => .error e
          | .ok _ => delete_items_loop store pattern rest (processed + 1) (deleted + 1)

/-- Model of `delete_items` (CleanupEmails.py lines 235-272).  The Python
function returns only `deleted`; the pair `(processed, deleted)` — both program
variables — is returned so the attempted/succeeded counts can be stated. -/
def delete_items (store : OutlookStore) (pattern : String)
    (to_be_deleted : List String) : Except Unit (Nat × Nat) :=
  delete_items_loop store pattern to_be_deleted 0 0

/-! ### Store-operation traces -/

/-- Remote mail-store operations issued by the two deletion executors. -/
inductive StoreOp where
  | fetchById (id : String)
  | setUnread (id : String) (unread : Bool)
  | moveTo (id : String) (folder : String)
  | setIsRead (id : String) (read : Bool)
  | hardDelete (id : String)
deriving DecidableEq, Repr

/-- Store operations issued by `delete_items` (CleanupEmails.py lines 256-271)
when every issued call succeeds; a raising call only truncates this trace, so
an operation never occurring here occurs on no execution path. -/
def delete_items_trace (store : OutlookStore) (pattern : String) :
    List String → List StoreOp
  | [] => []
  | entry_id :: rest =>
    StoreOp.fetchById entry_id ::
      match store.fetchItem entry_id with
      | .error _ => delete_items_trace store pattern rest
      | .ok item =>
        if codeKeepMatch pattern item.categories then
          delete_items_trace store pattern rest
        else
          StoreOp.setUnread entry_id false ::
            StoreOp.moveTo entry_id "Deleted Items" ::
              delete_items_trace store pattern rest

/-! ### Exchange variant (`email_cleanup.py`) -/

/-- Tuple appended per message by `get_repeated_items` (email_cleanup.py
lines 134-137): `(datetime_received, id, changekey, subject)`. -/
structure ExchMessage where
  datetime_received : Int
  id : String
  changekey : String
  subject : String
deriving DecidableEq, Repr

/-- Strict ascending lexicographic order on the four-component tuples of
`get_repeated_items`, as Python compares them. -/
def exchLt (a b : ExchMessage) : Prop :=
  a.datetime_received < b.datetime_received ∨
    (a.datetime_received = b.datetime_received ∧
      (a.id < b.id ∨
        (a.id = b.id ∧
          (a.changekey < b.changekey ∨
            (a.changekey = b.changekey ∧ a.subject < b.subject)))))

instance (a b : ExchMessage) : Decidable (exchLt a b) := by
  unfold exchLt
  infer_instance

/-- Descending comparison modelling `sorted(…, reverse=True)` in
`remove_older_items_from_conversations` (email_cleanup.py lines 158-160). -/
def exchGe (a b : ExchMessage) : Prop := exchLt b a ∨ a = b

instance (a b : ExchMessage) : Decidable (exchGe a b) :=
  decidable_of_iff (exchLt b a ∨ a = b) Iff.rfl

/-- Store operations issued by `remove_older_items_from_conversations`
(email_cleanup.py lines 146-171) when every call succeeds: per conversation
with more than one message, for every message except the most recent one,
`folder.get(id, changekey)`, then `is_read = True`, then `email_item.delete()`
— exchangelib's `Item.delete()`, a permanent hard deletion. -/
def remove_older_items_from_conversations_trace
    (unique_messages_on_folder : List (String × List ExchMessage)) : List StoreOp :=
  (unique_messages_on_folder.map (fun kc =>
    if 1 < kc.2.length then
      (((kc.2.insertionSort exchGe).tail).map (fun item =>
        [StoreOp.fetchById item.id, StoreOp.setIsRead item.id true,
          StoreOp.hardDelete item.id])).flatten
    else [])).flatten

/-- Grouping phase of `get_repeated_items` (email_cleanup.py lines 127-143)
recast over the common `MessageRecord` model: enumerate the folder's messages
whose time is at most `now` (`folder.filter(start__lte=datetime.now(utc))`) and
group them by conversation id; `changekey`/`subject` are omitted because the
record-set comparison is by message id. -/
def get_repeated_items (now : Int) (folder : List MessageRecord) :
    List (String × List (Int × String)) :=
  groupEmails (folder.filter (fun m => m.creationTime ≤ now))

/-- All message ids appearing in a grouped catalog. -/
def groupedIds (emails : List (String × List (Int × String))) : Finset String :=
  ((emails.map (fun kc => kc.2.map Prod.snd)).flatten).toFinset

/-! ### Python dynamic typing of the date arguments (CleanupEmails.py) -/

/-- A Python value passed as a date argument: either a parsed
`datetime` (modelled by its timestamp) or a plain `str`, such as the module
constant `DEFAULT_START_DATE = (datetime.now() - timedelta(days=3650)).strftime("%Y-%m-%d")`
(CleanupEmails.py line 58), which is a string. -/
inductive PyDateArg where
  | datetime (ts : Int)
  | str (s : String)

/-- Result of the attribute access `x.timestamp()`: succeeds on a `datetime`,
raises `AttributeError` on a `str`. -/
def pyTimestamp : PyDateArg → Except String Int
  | .datetime ts => .ok ts
  | .str _ => .error "AttributeError: str object has no attribute timestamp"

/-- One Python filtering pass whose predicate evaluates
`start_date.timestamp()` once per element (CleanupEmails.py lines 125 and 135):
with an empty list the attribute access is never evaluated, so no exception is
raised even when `start_date` is a string. -/
def filterByStart (start_date : PyDateArg) :
    List MessageRecord → Except String (List MessageRecord)
  | [] => .ok []
  | m :: rest =>
    match pyTimestamp start_date with
    | .error e => .error e
    | .ok ts =>
      match filterByStart start_date rest with
      | .error e => .error e
      | .ok l => .ok (if ts ≤ m.creationTime then m :: l else l)

/-- Model of `determine_items_to_be_deleted` tracking the dynamic type of its
`older_than` argument: line 197 evaluates `older_than.timestamp()`
unconditionally before the loop, so a string argument raises before any
deletion set is produced. -/
def determine_items_to_be_deleted_run
    (emails : List (String × List (Int × String))) (older_than : PyDateArg) :
    Except String (Finset String) :=
  match pyTimestamp older_than with
  | .error e => .error e
  | .ok ts => .ok (determine_items_to_be_deleted emails ts)

/-- Model of `retrieve_emails` tracking the dynamic type of its `start_date`
argument: the timestamp comparisons at lines 125 and 135 raise on a string
argument exactly when some element is examined. -/
def retrieve_emails_run (pattern : String) (start_date : PyDateArg)
    (fetch : String → Option MessageRecord) (folder : List MessageRecord) :
    Except String (List (String × List (Int × String))) :=
  match filterByStart start_date folder with
  | .error e => .error e
  | .ok quickItems =>
    match filterByStart start_date ((quickItems.map (fun m => m.id)).filterMap fetch) with
    | .error e => .error e
    | .ok items2 =>
      .ok (groupEmails (items2.filter (fun m => codeKeepMatch pattern m.categories = false)))

/-- Decision part of `main` (CleanupEmails.py lines 326-331) tracking the
dynamic types of the two date arguments, whose declared defaults are both the
string `DEFAULT_START_DATE`. -/
def main_run (pattern : String) (start_date older_than : PyDateArg)
    (fetch : String → Option MessageRecord) (folder : List MessageRecord) :
    Except String (Finset String) :=
  match retrieve_emails_run pattern start_date fetch folder with
  | .error e => .error e
  | .ok emails => determine_items_to_be_deleted_run emails older_than

/-! ### Reference definitions written from the claims under scrutiny -/

/-- Reference decision procedure stated by the claim on the decision engine:
group the whole catalog (exempt messages included) by conversation id, per
conversation tentatively mark for deletion every message except the one at
descending sort position 0 plus every message strictly older than the cutoff,
and only then remove every exempt message from the deletion set. -/
def claimedReferenceDeletionSet (isExempt : MessageRecord → Bool)
    (olderThan : Int) (catalog : List MessageRecord) : Finset String :=
  determine_items_to_be_deleted (groupEmails catalog) olderThan \
    ((catalog.filter isExempt).map (fun m => m.id)).toFinset

/-! ### Concrete fixtures used by counterexamples and witnesses -/

/-- A plain message, the older one of conversation `conv1`. -/
def mPlainOld : MessageRecord := ⟨"a", "conv1", 1, ""⟩

/-- The most recent message of `conv1`, carrying a category that the code's
exemption test accepts (the pattern occurs at character position 2). -/
def mExemptNew : MessageRecord := ⟨"b", "conv1", 2, "xxKeep"⟩

/-- Catalog whose most recent `conv1` message is exempt. -/
def cexCatalog : List MessageRecord := [mPlainOld, mExemptNew]

/-- The older message of `conv1`, with categories exactly `"Keep"`. -/
def mKeepOld : MessageRecord := ⟨"a", "conv1", 1, "Keep"⟩

/-- The most recent message of `conv1`, with no categories. -/
def mNewer : MessageRecord := ⟨"b", "conv1", 2, ""⟩

/-- Catalog whose older `conv1` message is marked with categories `"Keep"`. -/
def keepCatalog : List MessageRecord := [mKeepOld, mNewer]

/-- Store for the executor in which id `"a"` resolves to the `"Keep"`-marked
message and every write succeeds. -/
def keepStore : OutlookStore where
  fetchItem := fun i => if i = "a" then .ok mKeepOld else .error ()
  setUnread := fun _ _ => .ok ()
  moveToDeletedItems := fun _ => .ok ()

/-- Store in which fetching succeeds with a category-free message and the
`Move` call raises. -/
def badMoveStore : OutlookStore where
  fetchItem := fun _ => .ok mNewer
  setUnread := fun _ _ => .ok ()
  moveToDeletedItems := fun _ => .error ()

/-- Store in which every fetch raises. -/
def fetchFailStore : OutlookStore where
  fetchItem := fun _ => .error ()
  setUnread := fun _ _ => .ok ()
  moveToDeletedItems := fun _ => .ok ()

/-- Store in which every call succeeds on a category-free message. -/
def allOkStore : OutlookStore where
  fetchItem := fun _ => .ok mNewer
  setUnread := fun _ _ => .ok ()
  moveToDeletedItems := fun _ => .ok ()

/-- Older Exchange message of a two-message conversation. -/
def exchOlder : ExchMessage := ⟨1, "a", "ck1", "re: hi"⟩

/-- Most recent Exchange message of a two-message conversation. -/
def exchNewer : ExchMessage := ⟨2, "b", "ck2", "hi"⟩

/-- A folder grouping with one conversation of two messages. -/
def exchGroups : List (String × List ExchMessage) := [("conv1", [exchOlder, exchNewer])]

/-- Folder with a single in-range message that the code's exemption test
filters out during two-phase retrieval. -/
def exemptFolder : List MessageRecord := [⟨"a", "conv1", 1, "xxKeep"⟩]

/-- A grouped catalog with two conversations. -/
def groupsW : List (String × List (Int × String)) :=
  [("c1", [(1, "a")]), ("c2", [(2, "b"), (3, "d")])]

/-- The same grouped catalog with the conversations and the `c2` entries
listed in a different order. -/
def groupsW2 : List (String × List (Int × String)) :=
  [("c2", [(3, "d"), (2, "b")]), ("c1", [(1, "a")])]

/-! ### Helper lemmas: the descending sort -/

theorem pLt_trans {a b c : Int × String} (h1 : pLt a b) (h2 : pLt b c) : pLt a c := by
  rcases h1 with h1 | ⟨e1, l1⟩ <;> rcases h2 with h2 | ⟨e2, l2⟩
  · exact Or.inl (h1.trans h2)
  · exact Or.inl (e2 ▸ h1)
  · exact Or.inl (e1 ▸ h2)
  · exact Or.inr ⟨e1.trans e2, l1.trans l2⟩

theorem pLt_irrefl (a : Int × String) : ¬ pLt a a := by
  rintro (h | ⟨-, h⟩) <;> exact lt_irrefl _ h

theorem pLt_asymm {a b : Int × String} (h1 : pLt a b) (h2 : pLt b a) : False :=
  pLt_irrefl a (pLt_trans h1 h2)

theorem pySortedDesc_perm (l : List (Int × String)) : List.Perm (pySortedDesc l) l :=
  List.perm_insertionSort pGe l

theorem pySortedDesc_sorted (l : List (Int × String)) : List.Sorted pGe (pySortedDesc l) :=
  List.sorted_insertionSort pGe l

theorem pySortedDesc_canonical {l l2 : List (Int × String)} (h : List.Perm l l2) :
    pySortedDesc l = pySortedDesc l2 :=
  List.eq_of_perm_of_sorted
    ((pySortedDesc_perm l).trans (h.trans (pySortedDesc_perm l2).symm))
    (pySortedDesc_sorted l) (pySortedDesc_sorted l2)

/-- In a duplicate-free conversation list, the elements surviving the
`sorted(…, reverse=True)[1:]` step are exactly the elements strictly below some
other element of the list. -/
theorem mem_tail_pySortedDesc {conv : List (Int × String)} (hnd : conv.Nodup)
    {p : Int × String} :
    p ∈ (pySortedDesc conv).tail ↔ p ∈ conv ∧ ∃ q ∈ conv, pLt p q := by
  rcases hs : pySortedDesc conv with - | ⟨h0, t⟩
  · have hperm : List.Perm ([] : List (Int × String)) conv := hs ▸ pySortedDesc_perm conv
    have : conv = [] := hperm.symm.eq_nil
    subst this
    simp
  · have hperm : List.Perm (h0 :: t) conv := hs ▸ pySortedDesc_perm conv
    have hsort : List.Sorted pGe (h0 :: t) := hs ▸ pySortedDesc_sorted conv
    have hnd2 : (h0 :: t).Nodup := hperm.nodup_iff.mpr hnd
    have hhead : ∀ x ∈ t, pGe h0 x := List.rel_of_sorted_cons hsort
    have h0nt : h0 ∉ t := (List.nodup_cons.mp hnd2).1
    constructor
    · intro hp
      refine ⟨hperm.mem_iff.mp (List.mem_cons_of_mem _ hp),
        h0, hperm.mem_iff.mp (List.mem_cons_self _ _), ?_⟩
      rcases hhead p hp with hlt | heq
      · exact hlt
      · exact absurd (heq ▸ hp) h0nt
    · rintro ⟨hpconv, q, hqconv, hpq⟩
      have hp2 : p ∈ h0 :: t := hperm.mem_iff.mpr hpconv
      rcases List.mem_cons.mp hp2 with rfl | hpt
      · exfalso
        have hq2 : q ∈ p :: t := hperm.mem_iff.mpr hqconv
        rcases List.mem_cons.mp hq2 with rfl | hqt
        · exact pLt_irrefl _ hpq
        · rcases hhead q hqt with hlt | heq
          · exact pLt_asymm hpq hlt
          · exact pLt_irrefl q (heq ▸ hpq)
      · exact hpt

/-! ### Helper lemmas: the decision fold -/

theorem keysOf_cons (kv : String × List (Int × String))
    (rest : List (String × List (Int × String))) :
    keysOf (kv :: rest) = kv.1 :: keysOf rest := rfl

theorem step_eq_union (c : Int) :
    (fun (to_be_deleted : Finset String) (kc : String × List (Int × String)) =>
        mark_conversation_items_other_than_the_last_to_be_deleted kc.2
          (mark_older_messages_to_be_deleted kc.2 c to_be_deleted))
      = fun to_be_deleted kc => to_be_deleted ∪ markSet c kc.2 := by
  funext tbd kc
  simp [mark_conversation_items_other_than_the_last_to_be_deleted,
    mark_older_messages_to_be_deleted, markSet, Finset.union_assoc]

theorem mem_foldl_union {β : Type} (f : β → Finset String) (l : List β)
    (init : Finset String) (i : String) :
    i ∈ l.foldl (fun s x => s ∪ f x) init ↔ i ∈ init ∨ ∃ x ∈ l, i ∈ f x := by
  induction l generalizing init with
  | nil => simp
  | cons x xs ih =>
    rw [List.foldl_cons, ih]
    simp [or_assoc]

theorem mem_determine (emails : List (String × List (Int × String))) (c : Int)
    (i : String) :
    i ∈ determine_items_to_be_deleted emails c ↔ ∃ kc ∈ emails, i ∈ markSet c kc.2 := by
  unfold determine_items_to_be_deleted
  rw [step_eq_union c, mem_foldl_union]
  simp

/-! ### Helper lemmas: the grouping dictionary -/

theorem addToGroups_cons_eq (k1 : String) (v : List (Int × String))
    (rest : List (String × List (Int × String))) (e : Int × String) :
    addToGroups ((k1, v) :: rest) k1 e = (k1, v ++ [e]) :: rest := by
  simp [addToGroups]

theorem addToGroups_cons_ne {k1 cid : String} (h : k1 ≠ cid) (v : List (Int × String))
    (rest : List (String × List (Int × String))) (e : Int × String) :
    addToGroups ((k1, v) :: rest) cid e = (k1, v) :: addToGroups rest cid e := by
  simp [addToGroups, h]

theorem findConv_addToGroups (gs : List (String × List (Int × String))) (cid : String)
    (e : Int × String) (k : String) :
    findConv (addToGroups gs cid e) k =
      if k = cid then findConv gs k ++ [e] else findConv gs k := by
  induction gs with
  | nil =>
    rcases eq_or_ne k cid with h | h
    · subst h
      simp [addToGroups, findConv]
    · simp [addToGroups, findConv, h, Ne.symm h]
  | cons kv rest ih =>
    obtain ⟨k1, v⟩ := kv
    rcases eq_or_ne k1 cid with h1 | h1
    · subst h1
      rw [addToGroups_cons_eq]
      rcases eq_or_ne k k1 with h2 | h2
      · subst h2
        simp [findConv]
      · simp [findConv, h2, Ne.symm h2]
    · rw [addToGroups_cons_ne h1]
      rcases eq_or_ne k1 k with h2 | h2
      · subst h2
        simp [findConv, fun hh : k1 = cid => h1 hh]
      · simp [findConv, h2, ih]

theorem findConv_foldl (ms : List MessageRecord)
    (gs : List (String × List (Int × String))) (k : String) :
    findConv (ms.foldl (fun gs m => addToGroups gs m.conversationId (pairOf m)) gs) k =
      findConv gs k ++ (ms.filter (fun m => m.conversationId = k)).map pairOf := by
  induction ms generalizing gs with
  | nil => simp
  | cons m rest ih =>
    rw [List.foldl_cons, ih, findConv_addToGroups]
    rcases eq_or_ne k m.conversationId with h | h
    · subst h
      simp [List.filter_cons]
    · have h2 : ¬ (m.conversationId = k) := fun hh => h hh.symm
      simp [List.filter_cons, h, h2]

theorem findConv_groupEmails (ms : List MessageRecord) (k : String) :
    findConv (groupEmails ms) k =
      (ms.filter (fun m => m.conversationId = k)).map pairOf := by
  unfold groupEmails
  rw [findConv_foldl]
  simp [findConv]

theorem mem_keysOf_addToGroups (gs : List (String × List (Int × String))) (cid : String)
    (e : Int × String) (k : String) :
    k ∈ keysOf (addToGroups gs cid e) ↔ k ∈ keysOf gs ∨ k = cid := by
  induction gs with
  | nil => simp [addToGroups, keysOf]
  | cons kv rest ih =>
    obtain ⟨k1, v⟩ := kv
    rcases eq_or_ne k1 cid with h1 | h1
    · subst h1
      rw [addToGroups_cons_eq, keysOf_cons, keysOf_cons]
      simp only [List.mem_cons]
      tauto
    · rw [addToGroups_cons_ne h1, keysOf_cons, keysOf_cons]
      simp only [List.mem_cons, ih]
      tauto

theorem keysOf_addToGroups_nodup (gs : List (String × List (Int × String)))
    (cid : String) (e : Int × String) (h : (keysOf gs).Nodup) :
    (keysOf (addToGroups gs cid e)).Nodup := by
  induction gs with
  | nil => simp [addToGroups, keysOf]
  | cons kv rest ih =>
    obtain ⟨k1, v⟩ := kv
    rw [keysOf_cons, List.nodup_cons] at h
    rcases eq_or_ne k1 cid with h1 | h1
    · subst h1
      rw [addToGroups_cons_eq, keysOf_cons, List.nodup_cons]
      exact h
    · rw [addToGroups_cons_ne h1, keysOf_cons, List.nodup_cons]
      refine ⟨?_, ih h.2⟩
      rw [mem_keysOf_addToGroups]
      rintro (hk | rfl)
      · exact h.1 hk
      · exact h1 rfl

theorem keysOf_foldl_nodup (ms : List MessageRecord)
    (gs : List (String × List (Int × String))) (h : (keysOf gs).Nodup) :
    (keysOf (ms.foldl (fun gs m => addToGroups gs m.conversationId (pairOf m)) gs)).Nodup := by
  induction ms generalizing gs with
  | nil => exact h
  | cons m rest ih => exact ih _ (keysOf_addToGroups_nodup _ _ _ h)

theorem mem_keysOf_foldl (ms : List MessageRecord)
    (gs : List (String × List (Int × String))) (k : String) :
    k ∈ keysOf (ms.foldl (fun gs m => addToGroups gs m.conversationId (pairOf m)) gs) ↔
      k ∈ keysOf gs ∨ ∃ m ∈ ms, m.conversationId = k := by
  induction ms generalizing gs with
  | nil => simp
  | cons m rest ih =>
    rw [List.foldl_cons, ih, mem_keysOf_addToGroups]
    constructor
    · rintro ((hg | rfl) | ⟨x, hx, hxk⟩)
      · exact Or.inl hg
      · exact Or.inr ⟨m, List.mem_cons_self _ _, rfl⟩
      · exact Or.inr ⟨x, List.mem_cons_of_mem _ hx, hxk⟩
    · rintro (hg | ⟨x, hx, hxk⟩)
      · exact Or.inl (Or.inl hg)
      · rcases List.mem_cons.mp hx with rfl | hx2
        · exact Or.inl (Or.inr hxk.symm)
        · exact Or.inr ⟨x, hx2, hxk⟩

theorem mem_of_keys_nodup {gs : List (String × List (Int × String))}
    (h : (keysOf gs).Nodup) {k : String} {v : List (Int × String)} :
    (k, v) ∈ gs ↔ k ∈ keysOf gs ∧ v = findConv gs k := by
  induction gs generalizing v with
  | nil => simp [keysOf]
  | cons kv rest ih =>
    obtain ⟨k1, v1⟩ := kv
    rw [keysOf_cons, List.nodup_cons] at h
    constructor
    · intro hm
      rcases List.mem_cons.mp hm with heq | hm2
      · injection heq with e1 e2
        subst e1
        subst e2
        exact ⟨List.mem_cons_self _ _, by simp [findConv]⟩
      · obtain ⟨hk, hv⟩ := (ih h.2).mp hm2
        have hne : k1 ≠ k := fun e => h.1 (e ▸ hk)
        refine ⟨List.mem_cons_of_mem _ hk, ?_⟩
        simp [findConv, hne, hv]
    · rintro ⟨hk, rfl⟩
      rcases List.mem_cons.mp hk with rfl | hk2
      · simp [findConv]
      · have hne : k1 ≠ k := fun e => h.1 (e ▸ hk2)
        have hmem : (k, findConv rest k) ∈ rest := (ih h.2).mpr ⟨hk2, rfl⟩
        have hpair : ((k, findConv ((k1, v1) :: rest) k) : String × List (Int × String))
            = (k, findConv rest k) := by
          simp [findConv, hne]
        rw [hpair]
        exact List.mem_cons_of_mem _ hmem

theorem mem_groupEmails {ms : List MessageRecord} {k : String}
    {v : List (Int × String)} :
    (k, v) ∈ groupEmails ms ↔
      (∃ m ∈ ms, m.conversationId = k) ∧
        v = (ms.filter (fun m => m.conversationId = k)).map pairOf := by
  have hnd : (keysOf (groupEmails ms)).Nodup := by
    unfold groupEmails
    exact keysOf_foldl_nodup ms [] (by simp [keysOf])
  rw [mem_of_keys_nodup hnd, findConv_groupEmails]
  unfold groupEmails
  rw [mem_keysOf_foldl]
  simp [keysOf]

/-! ### Helper lemmas: honest store lookup and retrieval -/

theorem storeFetch_eq_some {folder : List MessageRecord}
    (hnd : (folder.map (fun m => m.id)).Nodup) {m : MessageRecord} (hm : m ∈ folder) :
    storeFetch folder m.id = some m := by
  induction folder with
  | nil => cases hm
  | cons h0 rest ih =>
    rw [List.map_cons, List.nodup_cons] at hnd
    rcases List.mem_cons.mp hm with rfl | hm2
    · unfold storeFetch
      rw [List.find?_cons_of_pos _ (by simp)]
    · have hne : ¬ (h0.id = m.id) := by
        intro he
        refine hnd.1 ?_
        rw [he]
        exact List.mem_map_of_mem (fun x => x.id) hm2
      unfold storeFetch
      rw [List.find?_cons_of_neg _ (by simp [hne])]
      exact ih hnd.2 hm2

theorem filterMap_storeFetch {folder : List MessageRecord}
    (hnd : (folder.map (fun m => m.id)).Nodup) {l : List MessageRecord}
    (hl : ∀ m ∈ l, m ∈ folder) :
    (l.map (fun m => m.id)).filterMap (storeFetch folder) = l := by
  induction l with
  | nil => simp
  | cons m rest ih =>
    have h1 := storeFetch_eq_some hnd (hl m (List.mem_cons_self _ _))
    rw [List.map_cons, List.filterMap_cons, h1,
      ih (fun x hx => hl x (List.mem_cons_of_mem _ hx))]

theorem retrieve_emails_storeFetch (pattern : String) (s : Int)
    {folder : List MessageRecord} (hnd : (folder.map (fun m => m.id)).Nodup) :
    retrieve_emails pattern s (storeFetch folder) folder =
      groupEmails ((folder.filter (fun m => s ≤ m.creationTime)).filter
        (fun m => codeKeepMatch pattern m.categories = false)) := by
  unfold retrieve_emails quick_retrieve_items_from_folders
  rw [filterMap_storeFetch hnd (fun m hm => (List.mem_filter.mp hm).1)]
  rw [List.filter_eq_self.mpr (fun m hm => (List.mem_filter.mp hm).2)]

theorem map_nodup_of_sublist {α β : Type} (f : α → β) {l l2 : List α}
    (h : List.Sublist l l2) (hnd : (l2.map f).Nodup) : (l.map f).Nodup :=
  List.Nodup.sublist (List.Sublist.map f h) hnd

/-! ### Helper lemmas: per-conversation mark sets and grouped ids -/

theorem markSet_perm {conv conv2 : List (Int × String)} (h : List.Perm conv conv2)
    (c : Int) : markSet c conv = markSet c conv2 := by
  unfold markSet
  rw [pySortedDesc_canonical h]
  congr 1
  exact List.toFinset_eq_of_perm _ _ ((h.filter _).map _)

theorem mem_groupedIds {emails : List (String × List (Int × String))} {i : String} :
    i ∈ groupedIds emails ↔ ∃ kc ∈ emails, ∃ p ∈ kc.2, p.2 = i := by
  constructor
  · intro hi
    rw [groupedIds, List.mem_toFinset] at hi
    obtain ⟨l, hl, hil⟩ := List.mem_flatten.mp hi
    obtain ⟨kc, hkc, rfl⟩ := List.mem_map.mp hl
    obtain ⟨p, hp, rfl⟩ := List.mem_map.mp hil
    exact ⟨kc, hkc, p, hp, rfl⟩
  · rintro ⟨kc, hkc, p, hp, rfl⟩
    rw [groupedIds, List.mem_toFinset]
    exact List.mem_flatten.mpr
      ⟨kc.2.map Prod.snd, List.mem_map_of_mem _ hkc, List.mem_map_of_mem _ hp⟩

theorem mem_groupedIds_groupEmails {ms : List MessageRecord} {i : String} :
    i ∈ groupedIds (groupEmails ms) ↔ ∃ m ∈ ms, m.id = i := by
  rw [mem_groupedIds]
  constructor
  · rintro ⟨⟨k, v⟩, hkv, p, hp, rfl⟩
    rw [mem_groupEmails] at hkv
    obtain ⟨-, rfl⟩ := hkv
    obtain ⟨m, hm, rfl⟩ := List.mem_map.mp hp
    exact ⟨m, (List.mem_filter.mp hm).1, rfl⟩
  · rintro ⟨m, hm, rfl⟩
    refine ⟨(m.conversationId,
      (ms.filter (fun x => x.conversationId = m.conversationId)).map pairOf),
      ?_, pairOf m, ?_, rfl⟩
    · rw [mem_groupEmails]
      exact ⟨⟨m, hm, rfl⟩, rfl⟩
    · exact List.mem_map_of_mem _ (List.mem_filter.mpr ⟨hm, by simp⟩)

/-! ### Helper lemmas: the deletion loop -/

theorem delete_items_loop_invariant {store : OutlookStore} {pattern : String}
    (ids : List String) :
    ∀ (p d p2 d2 : Nat), delete_items_loop store pattern ids p d = .ok (p2, d2) →
      p2 = p + ids.length ∧ d2 ≤ d + ids.length ∧ d ≤ d2 := by
  induction ids with
  | nil =>
    intro p d p2 d2 h
    simp only [delete_items_loop] at h
    obtain ⟨rfl, rfl⟩ := Prod.mk.injEq p d p2 d2 ▸ Except.ok.injEq _ _ ▸ h
    simp
  | cons entry_id rest ih =>
    intro p d p2 d2 h
    simp only [delete_items_loop] at h
    split at h
    · obtain ⟨h1, h2, h3⟩ := ih (p + 1) d p2 d2 h
      simp only [List.length_cons]
      omega
    · split at h
      · obtain ⟨h1, h2, h3⟩ := ih (p + 1) d p2 d2 h
        simp only [List.length_cons]
        omega
      · split at h
        · simp at h
        · split at h
          · simp at h
          · obtain ⟨h1, h2, h3⟩ := ih (p + 1) (d + 1) p2 d2 h
            simp only [List.length_cons]
            omega

theorem delete_items_loop_fetch_error {store : OutlookStore} {pattern : String}
    {entry_id : String} (rest : List String) (p d : Nat)
    (hfetch : store.fetchItem entry_id = .error ()) :
    delete_items_loop store pattern (entry_id :: rest) p d =
      delete_items_loop store pattern rest (p + 1) d := by
  simp only [delete_items_loop, hfetch]

theorem delete_items_loop_completes {store : OutlookStore} {pattern : String}
    (ids : List String)
    (hok : ∀ id ∈ ids, store.setUnread id false ≠ .error () ∧
      store.moveToDeletedItems id ≠ .error ()) :
    ∀ p d, ∃ r, delete_items_loop store pattern ids p d = .ok r := by
  induction ids with
  | nil => exact fun p d => ⟨(p, d), rfl⟩
  | cons entry_id rest ih =>
    intro p d
    have hid := hok entry_id (List.mem_cons_self _ _)
    have hrest := fun x hx => hok x (List.mem_cons_of_mem _ hx)
    simp only [delete_items_loop]
    cases hfetch : store.fetchItem entry_id with
    | error e => exact ih hrest (p + 1) d
    | ok item =>
      dsimp only
      cases hkeep : codeKeepMatch pattern item.categories with
      | true =>
        rw [if_pos rfl]
        exact ih hrest (p + 1) d
      | false =>
        rw [if_neg (by simp)]
        cases hsu : store.setUnread entry_id false with
        | error e => exact absurd hsu hid.1
        | ok u =>
          cases hmv : store.moveToDeletedItems entry_id with
          | error e => exact absurd hmv hid.2
          | ok u2 => exact ih hrest (p + 1) (d + 1)

/-! ### Helper lemmas: duplicate-free conversations -/

theorem conv_pairs_nodup {l : List MessageRecord}
    (hnd : (l.map (fun m => m.id)).Nodup) (k : String) :
    ((l.filter (fun x => x.conversationId = k)).map pairOf).Nodup := by
  have h1 : (((l.filter (fun x => x.conversationId = k)).map pairOf).map Prod.snd).Nodup := by
    rw [List.map_map]
    exact map_nodup_of_sublist _ (List.filter_sublist _) hnd
  exact List.Nodup.of_map _ h1

/-! ### Helper lemma: the Outlook executor never hard-deletes -/

theorem hardDelete_not_mem_delete_items_trace (store : OutlookStore) (pattern : String)
    (ids : List String) (i : String) :
    StoreOp.hardDelete i ∉ delete_items_trace store pattern ids := by
  induction ids with
  | nil => simp [delete_items_trace]
  | cons entry_id rest ih =>
    intro h
    simp only [delete_items_trace] at h
    rcases List.mem_cons.mp h with heq | h2
    · exact StoreOp.noConfusion heq
    · split at h2
      · exact ih h2
      · split at h2
        · exact ih h2
        · rcases List.mem_cons.mp h2 with he | h3
          · exact StoreOp.noConfusion he
          · rcases List.mem_cons.mp h3 with he2 | h4
            · exact StoreOp.noConfusion he2
            · exact ih h4

/-! ### Claim theorems -/

/-- Claim C5: the exemption test is claimed to match `categories` against the
keep pattern case-insensitively and to exempt a `categories` string equal to
the pattern itself.  The code instead passes `re.IGNORECASE` as the `pos`
argument of `Pattern.match`, so the test is case-sensitive and anchored at
character position 2: `"Keep"` itself is not exempt, and the two strings
`"abKeep"`/`"abkeep"`, differing only in letter case, disagree.  The intended
spec-level test `specKeepMatch` accepts `"Keep"`. -/
theorem keep_category_match_at_pos_two :
    codeKeepMatch "Keep" "Keep" = false ∧
    codeKeepMatch "Keep" "abKeep" = true ∧
    codeKeepMatch "Keep" "abkeep" = false ∧
    specKeepMatch "Keep" "Keep" = true := by
  decide

/-- Claim C2: a message whose `categories` matches the keep pattern (here the
default pattern `"Keep"`, with `categories` exactly `"Keep"`, a match under
the intended semantics) is claimed never to enter the final deletion set.  In
the code the broken position-2 test fails to recognise it, so the message
enters the deletion set, and the executor's re-check also fails to skip it:
the run marks the message read and moves it to Deleted Items. -/
theorem keep_marked_message_deleted :
    "a" ∈ cleanupDeletionSet "Keep" 0 0 (storeFetch keepCatalog) keepCatalog ∧
    delete_items keepStore "Keep" ["a"] = .ok (1, 1) ∧
    delete_items_trace keepStore "Keep" ["a"] =
      [StoreOp.fetchById "a", StoreOp.setUnread "a" false,
        StoreOp.moveTo "a" "Deleted Items"] := by
  refine ⟨by decide, rfl, rfl⟩

/-- Claim C3: deletion is claimed to be a move to the recoverable Deleted
Items folder on every execution path.  The Outlook executor indeed only ever
fetches, marks read and moves (first conjunct).  The Exchange executor
(`email_cleanup.py` line 171) instead calls exchangelib's `Item.delete()`, a
permanent hard deletion, and never issues a move: on a conversation with two
messages it hard-deletes the older one. -/
theorem deletion_executor_operations :
    (∀ (store : OutlookStore) (pattern : String) (ids : List String) (i : String),
      StoreOp.hardDelete i ∉ delete_items_trace store pattern ids) ∧
    StoreOp.hardDelete "a" ∈ remove_older_items_from_conversations_trace exchGroups ∧
    StoreOp.moveTo "a" "Deleted Items" ∉
      remove_older_items_from_conversations_trace exchGroups :=
  ⟨hardDelete_not_mem_delete_items_trace, by decide, by decide⟩

/-- Claim C4 counterexample: an exception raised while moving a single
message is claimed to be caught inside the Deletion Executor loop; in the code
only the fetch sits inside the `try/except`, so a raising `Move` propagates
out of `delete_items`. -/
theorem move_exception_escapes_executor :
    delete_items badMoveStore "Keep" ["a"] = .error () := rfl

/-- Claim C4 (amended): in `delete_items` an exception raised while fetching a
single message is caught and the item skipped with the loop continuing, and
when no mark-read or move call raises the loop always terminates normally;
exceptions from mark-read or move are not caught. -/
theorem executor_catches_only_fetch :
    ∀ (store : OutlookStore) (pattern : String),
      (∀ (entry_id : String) (rest : List String) (p d : Nat),
        store.fetchItem entry_id = .error () →
        delete_items_loop store pattern (entry_id :: rest) p d =
          delete_items_loop store pattern rest (p + 1) d) ∧
      (∀ ids : List String,
        (∀ id ∈ ids, store.setUnread id false ≠ .error () ∧
          store.moveToDeletedItems id ≠ .error ()) →
        ∃ r, delete_items store pattern ids = .ok r) := by
  intro store pattern
  refine ⟨fun entry_id rest p d h => delete_items_loop_fetch_error rest p d h, ?_⟩
  intro ids hok
  exact delete_items_loop_completes ids hok 0 0

/-- Witness for the amended C4 theorem at concrete stores and id lists. -/
theorem executor_catches_only_fetch_witness :
    delete_items_loop fetchFailStore "Keep" ["a", "b"] 0 0 =
      delete_items_loop fetchFailStore "Keep" ["b"] 1 0 ∧
    ∃ r, delete_items allOkStore "Keep" ["a"] = .ok r :=
  ⟨(executor_catches_only_fetch fetchFailStore "Keep").1 "a" ["b"] 0 0 rfl,
    (executor_catches_only_fetch allOkStore "Keep").2 ["a"]
      (fun _ _ => ⟨fun h => Except.noConfusion h, fun h => Except.noConfusion h⟩)⟩

/-- Claim C6: whenever `delete_items` completes with a `DeletionResult`, the
counts satisfy `succeeded ≤ attempted ≤ |DeletionSet|`; and an id whose fetch
raises is skipped — the loop continues on the remaining ids with the success
count unchanged, so the failed fetch contributes neither a success nor a run
failure. -/
theorem deletion_result_invariant :
    ∀ (store : OutlookStore) (pattern : String),
      (∀ (ids : List String) (attempted succeeded : Nat),
        delete_items store pattern ids = .ok (attempted, succeeded) →
        succeeded ≤ attempted ∧ attempted ≤ ids.length) ∧
      (∀ (entry_id : String) (rest : List String) (p d : Nat),
        store.fetchItem entry_id = .error () →
        delete_items_loop store pattern (entry_id :: rest) p d =
          delete_items_loop store pattern rest (p + 1) d) := by
  intro store pattern
  constructor
  · intro ids a s h
    obtain ⟨h1, h2, h3⟩ := delete_items_loop_invariant ids 0 0 a s h
    omega
  · exact fun entry_id rest p d h => delete_items_loop_fetch_error rest p d h

/-- Witness for the C6 theorem at a concrete store and id list. -/
theorem deletion_result_invariant_witness :
    (1 ≤ 1 ∧ 1 ≤ 1) ∧
      delete_items_loop fetchFailStore "Keep" ["a"] 0 0 =
        delete_items_loop fetchFailStore "Keep" [] 1 0 :=
  ⟨(deletion_result_invariant allOkStore "Keep").1 ["a"] 1 1 rfl,
    (deletion_result_invariant fetchFailStore "Keep").2 "a" [] 0 0 rfl⟩

/-- Claim C7: moving the `deleteOlderThan` cutoff later in time never shrinks
the deletion set computed by `determine_items_to_be_deleted`. -/
theorem deletion_set_monotone_in_cutoff (emails : List (String × List (Int × String)))
    (c1 c2 : Int) (h : c1 ≤ c2) :
    determine_items_to_be_deleted emails c1 ⊆ determine_items_to_be_deleted emails c2 := by
  intro i hi
  rw [mem_determine] at hi ⊢
  obtain ⟨kc, hkc, him⟩ := hi
  refine ⟨kc, hkc, ?_⟩
  simp only [markSet] at him ⊢
  rcases Finset.mem_union.mp him with hA | hB
  · apply Finset.mem_union_left
    rw [List.mem_toFinset] at hA ⊢
    obtain ⟨p, hp, hpi⟩ := List.mem_map.mp hA
    refine List.mem_map.mpr ⟨p, ?_, hpi⟩
    obtain ⟨hp1, hp2⟩ := List.mem_filter.mp hp
    refine List.mem_filter.mpr ⟨hp1, ?_⟩
    have hlt : p.1 < c1 := by simpa using hp2
    simpa using lt_of_lt_of_le hlt h
  · exact Finset.mem_union_right _ hB

/-- Witness for the C7 theorem at a concrete catalog and cutoff pair. -/
theorem deletion_set_monotone_in_cutoff_witness :
    determine_items_to_be_deleted groupsW 1 ⊆ determine_items_to_be_deleted groupsW 2 :=
  deletion_set_monotone_in_cutoff groupsW 1 2 (by decide)

/-- Claim C10: the declared default value of the `start_date`/`older_than`
parameters is the string `DEFAULT_START_DATE`; calling the decision engine
with a string default raises `AttributeError` (line 197 evaluates
`older_than.timestamp()` before any deletion set is built, for every catalog
including the empty one), the orchestrator `main` likewise raises for every
folder when both date arguments are left at their string defaults, and a
caller passing a parsed `datetime` (as the CLI entry point does) obtains the
deletion set. -/
theorem default_date_arguments_raise :
    (∀ (emails : List (String × List (Int × String))) (s : String),
      determine_items_to_be_deleted_run emails (PyDateArg.str s) =
        .error "AttributeError: str object has no attribute timestamp") ∧
    (∀ (pattern : String) (s o : String) (fetch : String → Option MessageRecord)
        (folder : List MessageRecord),
      main_run pattern (PyDateArg.str s) (PyDateArg.str o) fetch folder =
        .error "AttributeError: str object has no attribute timestamp") ∧
    (∀ (emails : List (String × List (Int × String))) (t : Int),
      determine_items_to_be_deleted_run emails (PyDateArg.datetime t) =
        .ok (determine_items_to_be_deleted emails t)) := by
  refine ⟨fun emails s => rfl, ?_, fun emails t => rfl⟩
  intro pattern s o fetch folder
  cases folder with
  | nil => rfl
  | cons m rest => rfl

/-- Claim C1 counterexample: the claim's reference definition ranks exempt
messages in the recency order and removes them from the deletion set only at
the end; the engine instead filters exempt messages out before grouping.  On a
conversation whose most recent message is exempt the reference deletes the
older plain message while the engine deletes nothing. -/
theorem retention_engine_differs_from_claimed_reference :
    cleanupDeletionSet "Keep" 0 0 (storeFetch cexCatalog) cexCatalog = ∅ ∧
    claimedReferenceDeletionSet (fun m => codeKeepMatch "Keep" m.categories) 0 cexCatalog
      = {"a"} ∧
    cleanupDeletionSet "Keep" 0 0 (storeFetch cexCatalog) cexCatalog ≠
      claimedReferenceDeletionSet (fun m => codeKeepMatch "Keep" m.categories) 0
        cexCatalog := by
  refine ⟨by decide, by decide, by decide⟩

/-- Claim C9 counterexample: the two-phase retrieval is claimed to produce the
same record set as the exhaustive retrieval modulo only the age pre-filter; on
a folder with one in-range message whose categories the keep test accepts, the
two-phase result is empty while the age-filtered exhaustive result contains
the message. -/
theorem two_phase_retrieval_not_equal_modulo_age :
    groupedIds (retrieve_emails "Keep" 0 (storeFetch exemptFolder) exemptFolder) = ∅ ∧
    groupedIds (get_repeated_items 5
      (exemptFolder.filter (fun m => (0 : Int) ≤ m.creationTime))) = {"a"} ∧
    groupedIds (retrieve_emails "Keep" 0 (storeFetch exemptFolder) exemptFolder) ≠
      groupedIds (get_repeated_items 5
        (exemptFolder.filter (fun m => (0 : Int) ≤ m.creationTime))) := by
  refine ⟨by decide, by decide, by decide⟩

/-- Claim C1 (amended): over a catalog with duplicate-free ids and an honest
store lookup, the engine (`retrieve_emails` then
`determine_items_to_be_deleted`) deletes exactly the ids of the messages that
survive the retrieval pre-filters — creation time at least
`retrievalStartDate` and categories not accepted by the keep test — and are
either strictly older than `deleteOlderThan` or not the most recent surviving
message of their conversation, recency being the descending
`(creationTime, id)` order.  Exempt messages are removed before grouping, so
they take no part in the recency ranking: when the most recent message of a
conversation is exempt, the most recent surviving message is the one kept. -/
theorem retention_decision_engine_characterization (pattern : String)
    (startDate olderThan : Int) (folder : List MessageRecord)
    (hnd : (folder.map (fun m => m.id)).Nodup) (i : String) :
    i ∈ cleanupDeletionSet pattern startDate olderThan (storeFetch folder) folder ↔
      ∃ m ∈ folder, m.id = i ∧ startDate ≤ m.creationTime ∧
        codeKeepMatch pattern m.categories = false ∧
        (m.creationTime < olderThan ∨
          ∃ m2 ∈ folder, m2.conversationId = m.conversationId ∧
            startDate ≤ m2.creationTime ∧ codeKeepMatch pattern m2.categories = false ∧
            pLt (pairOf m) (pairOf m2)) := by
  have hset : cleanupDeletionSet pattern startDate olderThan (storeFetch folder) folder
      = determine_items_to_be_deleted
          (groupEmails ((folder.filter (fun m => startDate ≤ m.creationTime)).filter
            (fun m => codeKeepMatch pattern m.categories = false))) olderThan := by
    unfold cleanupDeletionSet
    rw [retrieve_emails_storeFetch pattern startDate hnd]
  have hsurv_mem : ∀ m : MessageRecord,
      m ∈ (folder.filter (fun m => startDate ≤ m.creationTime)).filter
        (fun m => codeKeepMatch pattern m.categories = false) ↔
      m ∈ folder ∧ startDate ≤ m.creationTime ∧
        codeKeepMatch pattern m.categories = false := by
    intro m
    simp [List.mem_filter, and_assoc]
    tauto
  have hsurvnd : (((folder.filter (fun m => startDate ≤ m.creationTime)).filter
      (fun m => codeKeepMatch pattern m.categories = false)).map (fun m => m.id)).Nodup :=
    map_nodup_of_sublist _ ((List.filter_sublist _).trans (List.filter_sublist _)) hnd
  rw [hset, mem_determine]
  constructor
  · rintro ⟨⟨k, conv⟩, hkc, him⟩
    rw [mem_groupEmails] at hkc
    obtain ⟨-, rfl⟩ := hkc
    simp only [markSet] at him
    rcases Finset.mem_union.mp him with hA | hB
    · rw [List.mem_toFinset] at hA
      obtain ⟨p, hp, hpi⟩ := List.mem_map.mp hA
      obtain ⟨hpconv, hplt⟩ := List.mem_filter.mp hp
      obtain ⟨m, hmk, rfl⟩ := List.mem_map.mp hpconv
      have hm := (hsurv_mem m).mp (List.mem_filter.mp hmk).1
      exact ⟨m, hm.1, hpi, hm.2.1, hm.2.2, Or.inl (by simpa using hplt)⟩
    · rw [List.mem_toFinset] at hB
      obtain ⟨p, hp, hpi⟩ := List.mem_map.mp hB
      have hconvnd :
          (((folder.filter (fun m => startDate ≤ m.creationTime)).filter
              (fun m => codeKeepMatch pattern m.categories = false)).filter
            (fun m => m.conversationId = k)).map pairOf
            |>.Nodup := conv_pairs_nodup hsurvnd k
      rw [mem_tail_pySortedDesc hconvnd] at hp
      obtain ⟨hpconv, q, hqconv, hpq⟩ := hp
      obtain ⟨m, hmk, rfl⟩ := List.mem_map.mp hpconv
      obtain ⟨m2, hm2k, rfl⟩ := List.mem_map.mp hqconv
      obtain ⟨hmfil1, hmfil2⟩ := List.mem_filter.mp hmk
      obtain ⟨hm2fil1, hm2fil2⟩ := List.mem_filter.mp hm2k
      have hm := (hsurv_mem m).mp hmfil1
      have hm2 := (hsurv_mem m2).mp hm2fil1
      have hcid : m2.conversationId = m.conversationId := by
        have e1 : m.conversationId = k := by simpa using hmfil2
        have e2 : m2.conversationId = k := by simpa using hm2fil2
        rw [e1, e2]
      exact ⟨m, hm.1, hpi, hm.2.1, hm.2.2,
        Or.inr ⟨m2, hm2.1, hcid, hm2.2.1, hm2.2.2, hpq⟩⟩
  · rintro ⟨m, hmf, rfl, hrange, hkeep, hrest⟩
    have hmsurv : m ∈ (folder.filter (fun m => startDate ≤ m.creationTime)).filter
        (fun m => codeKeepMatch pattern m.categories = false) :=
      (hsurv_mem m).mpr ⟨hmf, hrange, hkeep⟩
    refine ⟨(m.conversationId,
      (((folder.filter (fun m => startDate ≤ m.creationTime)).filter
          (fun m => codeKeepMatch pattern m.categories = false)).filter
        (fun x => x.conversationId = m.conversationId)).map pairOf), ?_, ?_⟩
    · rw [mem_groupEmails]
      exact ⟨⟨m, hmsurv, rfl⟩, rfl⟩
    · have hmkfil : m ∈ ((folder.filter (fun m => startDate ≤ m.creationTime)).filter
          (fun m => codeKeepMatch pattern m.categories = false)).filter
          (fun x => x.conversationId = m.conversationId) :=
        List.mem_filter.mpr ⟨hmsurv, by simp⟩
      simp only [markSet]
      rcases hrest with hold | ⟨m2, hm2f, hcid, hrange2, hkeep2, hplt⟩
      · apply Finset.mem_union_left
        rw [List.mem_toFinset]
        refine List.mem_map.mpr ⟨pairOf m, ?_, rfl⟩
        exact List.mem_filter.mpr ⟨List.mem_map_of_mem _ hmkfil, by simpa using hold⟩
      · apply Finset.mem_union_right
        rw [List.mem_toFinset]
        refine List.mem_map.mpr ⟨pairOf m, ?_, rfl⟩
        rw [mem_tail_pySortedDesc (conv_pairs_nodup hsurvnd m.conversationId)]
        have hm2surv : m2 ∈ (folder.filter (fun m => startDate ≤ m.creationTime)).filter
            (fun m => codeKeepMatch pattern m.categories = false) :=
          (hsurv_mem m2).mpr ⟨hm2f, hrange2, hkeep2⟩
        have hm2fil : m2 ∈ ((folder.filter (fun m => startDate ≤ m.creationTime)).filter
            (fun m => codeKeepMatch pattern m.categories = false)).filter
            (fun x => x.conversationId = m.conversationId) :=
          List.mem_filter.mpr ⟨hm2surv, by simp [hcid]⟩
        exact ⟨List.mem_map_of_mem _ hmkfil, pairOf m2,
          List.mem_map_of_mem _ hm2fil, hplt⟩

/-- Witness for the amended C1 theorem: on the concrete catalog whose older
`conv1` message carries categories `"Keep"`, the characterization places id
`"a"` in the deletion set. -/
theorem retention_decision_engine_characterization_witness :
    "a" ∈ cleanupDeletionSet "Keep" 0 0 (storeFetch keepCatalog) keepCatalog :=
  (retention_decision_engine_characterization "Keep" 0 0 keepCatalog (by decide) "a").mpr
    ⟨mKeepOld, by decide, rfl, by decide, by decide,
      Or.inr ⟨mNewer, by decide, rfl, by decide, by decide, by decide⟩⟩

/-- Claim C8: the decision step is a pure function of its input — runs on the
same catalog give the same deletion set — and, more strongly, the deletion
set only depends on the grouped catalog up to reordering of the conversations
and of the messages inside each conversation, so the nondeterministic
iteration orders of Python's `set` and `dict` cannot change it. -/
theorem deletion_set_deterministic (emails emails2 : List (String × List (Int × String)))
    (c : Int)
    (h : List.Perm
      (emails.map (fun kc => (kc.1, (kc.2 : Multiset (Int × String)))))
      (emails2.map (fun kc => (kc.1, (kc.2 : Multiset (Int × String)))))) :
    determine_items_to_be_deleted emails c = determine_items_to_be_deleted emails2 c := by
  have key : ∀ (l l2 : List (String × List (Int × String))),
      List.Perm (l.map (fun kc => (kc.1, (kc.2 : Multiset (Int × String)))))
        (l2.map (fun kc => (kc.1, (kc.2 : Multiset (Int × String))))) →
      ∀ i : String, (∃ kc ∈ l, i ∈ markSet c kc.2) → ∃ kc ∈ l2, i ∈ markSet c kc.2 := by
    rintro l l2 hperm i ⟨kc, hkc, him⟩
    have hmem := hperm.mem_iff.mp (List.mem_map_of_mem _ hkc)
    obtain ⟨kc2, hkc2, heq⟩ := List.mem_map.mp hmem
    have e2 : (kc2.2 : Multiset (Int × String)) = (kc.2 : Multiset (Int × String)) :=
      congrArg Prod.snd heq
    have hp : List.Perm kc2.2 kc.2 := Multiset.coe_eq_coe.mp e2
    exact ⟨kc2, hkc2, (markSet_perm hp c).symm ▸ him⟩
  ext i
  rw [mem_determine, mem_determine]
  exact ⟨key emails emails2 h i, key emails2 emails h.symm i⟩

/-- Witness for the C8 theorem: the two concrete orderings of the same grouped
catalog give the same deletion set. -/
theorem deletion_set_deterministic_witness :
    determine_items_to_be_deleted groupsW 2 = determine_items_to_be_deleted groupsW2 2 :=
  deletion_set_deterministic groupsW groupsW2 2 (by decide)

/-- Claim C9 (amended): with an honest store lookup over duplicate-free ids
and no future-dated messages, the two-phase retrieval of `CleanupEmails.py`
produces the same grouped record set (compared by message ids) as the
exhaustive single-phase retrieval of `email_cleanup.py` applied to the folder
restricted by the age pre-filter AND the keep-category pre-filter: the
strategies agree modulo both pre-filters, not modulo the age filter alone. -/
theorem retrieval_strategies_equivalent (pattern : String) (s now : Int)
    (folder : List MessageRecord) (hnd : (folder.map (fun m => m.id)).Nodup)
    (hnow : ∀ m ∈ folder, m.creationTime ≤ now) :
    groupedIds (retrieve_emails pattern s (storeFetch folder) folder) =
      groupedIds (get_repeated_items now
        ((folder.filter (fun m => s ≤ m.creationTime)).filter
          (fun m => codeKeepMatch pattern m.categories = false))) := by
  rw [retrieve_emails_storeFetch pattern s hnd]
  unfold get_repeated_items
  refine congrArg groupedIds (congrArg groupEmails ?_)
  refine (List.filter_eq_self.mpr ?_).symm
  intro m hm
  have hmf : m ∈ folder := (List.mem_filter.mp (List.mem_filter.mp hm).1).1
  simpa using hnow m hmf

/-- Witness for the amended C9 theorem at a concrete folder. -/
theorem retrieval_strategies_equivalent_witness :
    groupedIds (retrieve_emails "Keep" 0 (storeFetch exemptFolder) exemptFolder) =
      groupedIds (get_repeated_items 5
        ((exemptFolder.filter (fun m => (0 : Int) ≤ m.creationTime)).filter
          (fun m => codeKeepMatch "Keep" m.categories = false))) :=
  retrieval_strategies_equivalent "Keep" 0 5 exemptFolder (by decide) (by decide)
